import Mathlib

/-!
Verification of the numerical core of `ifp_advanced_code.ipynb`: the income
fluctuation problem solver (Euler-equation residual with Monte Carlo
expectation, piecewise-linear interpolation of the consumption policy, and the
time-iteration driver `solve_model`).

The embedding uses exact real arithmetic (`ℝ`) for the float computations.
Machine-specific behaviour (IEEE infinities/NaN) is outside this embedding.
-/

/-- A consumption policy on the asset grid: one row per grid point, one entry
per income state (the source's 2-D numpy array `c_vec`, indexed `[i, z]`). -/
abbrev PolicyArray := List (List ℝ)

/-- The `IFP` jitclass: the primitives of the income fluctuation problem.
Fields are exactly the `ifp_data` slots of the source. -/
structure IFP where
  γ : ℝ
  β : ℝ
  P : List (List ℝ)
  σ_vec : List ℝ
  s : ℝ
  a_grid : List ℝ
  η_draws : List ℝ
  ζ_draws : List ℝ

/-- Marginal utility `u_prime(c) = c ** (-γ)` (real-power semantics). -/
noncomputable def IFP.u_prime (ifp : IFP) (c : ℝ) : ℝ := c ^ (-ifp.γ)

/-- Gross return shock `R(z, ζ) = exp(σ_vec[z] * ζ)`. -/
noncomputable def IFP.R (ifp : IFP) (z : ℕ) (ζ : ℝ) : ℝ :=
  Real.exp (ifp.σ_vec.getD z 0 * ζ)

/-- Income realisation `Y(η) = exp(s * η)`. -/
noncomputable def IFP.Y (ifp : IFP) (η : ℝ) : ℝ := Real.exp (ifp.s * η)

/-- `np.linspace a b n`: `n` evenly spaced points from `a` to `b` inclusive. -/
noncomputable def linspace (a b : ℝ) (n : ℕ) : List ℝ :=
  (List.range n).map (fun i => a + (b - a) * i / ((n : ℝ) - 1))

/-- The `IFP.__init__` constructor.  `np.random` is modelled by an explicit
pseudo-random stream `randn : state → index → draw`; the call
`np.random.seed(1234)` discards the ambient global generator state
`ambientState` and fixes the stream at state `1234`, after which the two
`np.random.randn(shock_draw_size)` calls consume consecutive draws. -/
noncomputable def IFP.init (randn : ℕ → ℕ → ℝ) (ambientState : ℕ)
    (γ β : ℝ) (P : List (List ℝ)) (σ_vec : List ℝ) (s : ℝ)
    (shock_draw_size : ℕ) (grid_max : ℝ) (grid_size : ℕ) : IFP where
  γ := γ
  β := β
  P := P
  σ_vec := σ_vec
  s := s
  η_draws := (List.range shock_draw_size).map (fun k => randn 1234 k)
  ζ_draws := (List.range shock_draw_size).map (fun k => randn 1234 (shock_draw_size + k))
  a_grid := linspace 0 grid_max grid_size

/-- Piecewise-linear interpolation with linear extrapolation at both ends,
modelling `interpolation.interp(xs, ys, x)` from the source's imports
(`np.interp` plus extrapolation, no clamping): pick the segment index `j` as
the index of the last grid point `≤ x`, clamped to `[0, n-2]`, and evaluate
that segment's linear form. -/
noncomputable def interp (xs ys : List ℝ) (x : ℝ) : ℝ :=
  let j := min (xs.length - 2) (xs.countP (fun p => decide (p ≤ x)) - 1)
  ys.getD j 0 +
    (x - xs.getD j 0) * (ys.getD (j + 1) 0 - ys.getD j 0) / (xs.getD (j + 1) 0 - xs.getD j 0)

/-- The consumption function of `euler_diff`:
`c = lambda a, z: interp(a_grid, c_vec[:, z], a)`. -/
noncomputable def cfun (c_vec : PolicyArray) (ifp : IFP) (a : ℝ) (z : ℕ) : ℝ :=
  interp ifp.a_grid (c_vec.map (fun row => row.getD z 0)) a

/-- The inner Monte Carlo double sum of `euler_diff` for one next-period income
state `z_hat`:
`Σ_{η ∈ ifp.η_draws} Σ_{ζ ∈ ifp.ζ_draws} R(z_hat, ζ) * u_prime(c(R(z_hat, ζ)*(a-t) + Y(η), z_hat)) * P[z, z_hat]`. -/
noncomputable def shockSum (t : ℝ) (c_vec : PolicyArray) (a : ℝ) (z : ℕ) (ifp : IFP)
    (z_hat : ℕ) : ℝ :=
  (ifp.η_draws.map (fun η =>
    (ifp.ζ_draws.map (fun ζ =>
      ifp.R z_hat ζ *
        ifp.u_prime (cfun c_vec ifp (ifp.R z_hat ζ * (a - t) + ifp.Y η) z_hat) *
        (ifp.P.getD z []).getD z_hat 0)).sum)).sum

/-- The accumulated `Ez` of `euler_diff` before normalisation: the source loops
`for z_hat in (0, 1)` over a hard-coded pair of income states. -/
noncomputable def euler_Ez (t : ℝ) (c_vec : PolicyArray) (a : ℝ) (z : ℕ) (ifp : IFP) : ℝ :=
  (([0, 1] : List ℕ).map (shockSum t c_vec a z ifp)).sum

/-- `euler_diff(t, c_vec, a, z, ifp)`: the difference of the two sides of the
Euler equation.  The source's local unpacking
`a_grid, η_draws, ζ_draws = ifp.a_grid, ifp.η_draws, ifp.η_draws`
binds the local name `ζ_draws` to `ifp.η_draws`, so the final normalisation
`Ez / (len(η_draws) * len(ζ_draws))` divides by `len(η_draws)` squared, while
the loops themselves range over the true attributes `ifp.η_draws` and
`ifp.ζ_draws`. -/
noncomputable def euler_diff (t : ℝ) (c_vec : PolicyArray) (a : ℝ) (z : ℕ) (ifp : IFP) : ℝ :=
  let Ez := euler_Ez t c_vec a z ifp /
    ((ifp.η_draws.length : ℝ) * (ifp.η_draws.length : ℝ))
  ifp.u_prime t - max (ifp.β * Ez) (ifp.u_prime a)

/-- The residual exactly as the specification words it (comparator for the
refinement claims): `u'(t) - max(β·E, u'(a))` with
`E = (1/(N_η·N_ζ)) · Σ_{z' ∈ Z} Σ_{η} Σ_{ζ} R(z',ζ) · u'(c_{z'}(R(z',ζ)(a-t) + Y(η))) · P[z, z']`,
the state set `Z` ranging over all rows of the (square) transition matrix. -/
noncomputable def eulerResidualSpec (t : ℝ) (c_vec : PolicyArray) (a : ℝ) (z : ℕ)
    (ifp : IFP) : ℝ :=
  let E := (1 / ((ifp.η_draws.length : ℝ) * (ifp.ζ_draws.length : ℝ))) *
    (Finset.range ifp.P.length).sum (shockSum t c_vec a z ifp)
  ifp.u_prime t - max (ifp.β * E) (ifp.u_prime a)

/-- `euler_diff` with the intended normalisation `N_η · N_ζ` in place of the
aliased `N_η · N_η` (states still hard-coded to `(0, 1)`): the comparator for
the aliasing claim. -/
noncomputable def euler_diff_intended (t : ℝ) (c_vec : PolicyArray) (a : ℝ) (z : ℕ)
    (ifp : IFP) : ℝ :=
  let Ez := euler_Ez t c_vec a z ifp /
    ((ifp.η_draws.length : ℝ) * (ifp.ζ_draws.length : ℝ))
  ifp.u_prime t - max (ifp.β * Ez) (ifp.u_prime a)

/-- The Monte Carlo double sum taken over every income state of the transition
matrix (comparator for the hard-coded-states claim). -/
noncomputable def euler_Ez_all (t : ℝ) (c_vec : PolicyArray) (a : ℝ) (z : ℕ)
    (ifp : IFP) : ℝ :=
  (Finset.range ifp.P.length).sum (shockSum t c_vec a z ifp)

/-- One printed line of `solve_model`: the per-iteration progress report, the
`"Failed to converge!"` message, or the `"Converged in i iterations."` message. -/
inductive SolveMsg
  | progress (i : ℕ) (error : ℝ)
  | failed
  | converged (i : ℕ)

/-- `np.max(np.abs(c - c_new))`: sup-norm distance of two policy arrays. -/
noncomputable def supDiff (c c' : PolicyArray) : ℝ :=
  let l := (List.zipWith (fun r r' => List.zipWith (fun x y => |x - y|) r r') c c').join
  l.foldl max (l.headD 0)

/-- The `while i < max_iter and error > tol` loop of `solve_model`.  State:
iteration count `i`, current `error`, current policy `c`, the last value bound
to the Python local `c_new` (`none` before the body first runs), and the
printed log so far. -/
noncomputable def loopGo (K : PolicyArray → PolicyArray) (tol : ℝ)
    (max_iter print_skip : ℕ) (verbose : Bool) (i : ℕ) (error : ℝ)
    (c : PolicyArray) (last : Option PolicyArray) (log : List SolveMsg) :
    Option PolicyArray × ℕ × List SolveMsg :=
  if h : i < max_iter ∧ tol < error then
    let c_new := K c
    let error' := supDiff c c_new
    let log' := if verbose = true ∧ (i + 1) % print_skip = 0
      then log ++ [SolveMsg.progress (i + 1) error'] else log
    loopGo K tol max_iter print_skip verbose (i + 1) error' c_new (some c_new) log'
  else (last, i, log)
termination_by max_iter - i
decreasing_by have := h.1; omega

/-- `solve_model(ifp, tol, max_iter, verbose, print_skip)`.  The policy
operator `K` is a parameter: the source's `K` delegates every grid point to the
third-party float root-finder `quantecon.brentq`, an external library outside
this repository.  The function builds the consume-all-assets initial policy
from `ifp.a_grid`, runs the loop, and executes `return c_new`: the result is
the last value bound to `c_new` (`none` models the `NameError` raised when the
loop body never ran), paired with the printed log. -/
noncomputable def solve_model (K : PolicyArray → PolicyArray) (ifp : IFP) (tol : ℝ)
    (max_iter : ℕ) (verbose : Bool) (print_skip : ℕ) :
    Option PolicyArray × List SolveMsg :=
  let c_init := ifp.a_grid.map (fun a => [a, a])
  let r := loopGo K tol max_iter print_skip verbose 0 (tol + 1) c_init none []
  let log1 := if r.2.1 = max_iter then r.2.2 ++ [SolveMsg.failed] else r.2.2
  let log2 := if verbose = true ∧ r.2.1 < max_iter
    then log1 ++ [SolveMsg.converged r.2.1] else log1
  (r.1, log2)

/-! ### Sorted-list facts about `countP` and `getD` -/

lemma getD_le_of_lt_countP {xs : List ℝ} (hs : xs.Pairwise (· < ·)) {x : ℝ} {i : ℕ}
    (hi : i < xs.countP (fun p => decide (p ≤ x))) : xs.getD i 0 ≤ x := by
  induction xs generalizing i with
  | nil => simp at hi
  | cons hd tl ih =>
    rw [List.pairwise_cons] at hs
    rw [List.countP_cons] at hi
    by_cases hhd : hd ≤ x
    · cases i with
      | zero => simpa using hhd
      | succ n =>
        rw [List.getD_cons_succ]
        refine ih hs.2 ?_
        have hd1 : (decide (hd ≤ x)) = true := decide_eq_true hhd
        simp only [hd1, if_true] at hi
        omega
    · have h0 : tl.countP (fun p => decide (p ≤ x)) = 0 := by
        refine List.countP_eq_zero.mpr ?_
        intro a ha
        simp only [decide_eq_true_eq]
        intro hax
        exact hhd (le_of_lt (lt_of_lt_of_le (hs.1 a ha) hax))
      have hd0 : (decide (hd ≤ x)) = false := decide_eq_false hhd
      simp [hd0, h0] at hi

lemma lt_getD_of_countP_le {xs : List ℝ} (hs : xs.Pairwise (· < ·)) {x : ℝ} {i : ℕ}
    (hc : xs.countP (fun p => decide (p ≤ x)) ≤ i) (hl : i < xs.length) :
    x < xs.getD i 0 := by
  induction xs generalizing i with
  | nil => simp at hl
  | cons hd tl ih =>
    rw [List.pairwise_cons] at hs
    rw [List.countP_cons] at hc
    by_cases hhd : hd ≤ x
    · have hd1 : (decide (hd ≤ x)) = true := decide_eq_true hhd
      simp only [hd1, if_true] at hc
      cases i with
      | zero => omega
      | succ n =>
        rw [List.getD_cons_succ]
        exact ih hs.2 (by omega) (by simpa using hl)
    · push_neg at hhd
      cases i with
      | zero => simpa using hhd
      | succ n =>
        rw [List.getD_cons_succ]
        have hn : n < tl.length := by simpa using hl
        have hmem : tl.getD n 0 ∈ tl := by
          rw [List.getD_eq_getElem tl 0 hn]
          exact List.getElem_mem hn
        exact lt_trans hhd (hs.1 _ hmem)

lemma pairwise_le_getD_mono {ys : List ℝ} (h : ys.Pairwise (· ≤ ·)) {i j : ℕ}
    (hij : i ≤ j) (hj : j < ys.length) : ys.getD i 0 ≤ ys.getD j 0 := by
  rcases eq_or_lt_of_le hij with rfl | hlt
  · exact le_refl _
  · have hi : i < ys.length := lt_trans hlt hj
    rw [List.getD_eq_getElem ys 0 hi, List.getD_eq_getElem ys 0 hj]
    exact List.pairwise_iff_getElem.mp h i j hi hj hlt

lemma pairwise_lt_getD_strict {xs : List ℝ} (h : xs.Pairwise (· < ·)) {i j : ℕ}
    (hij : i < j) (hj : j < xs.length) : xs.getD i 0 < xs.getD j 0 := by
  have hi : i < xs.length := lt_trans hij hj
  rw [List.getD_eq_getElem xs 0 hi, List.getD_eq_getElem xs 0 hj]
  exact List.pairwise_iff_getElem.mp h i j hi hj hij

lemma countP_at_node {xs : List ℝ} (hs : xs.Pairwise (· < ·)) {i : ℕ}
    (hi : i < xs.length) :
    xs.countP (fun p => decide (p ≤ xs.getD i 0)) = i + 1 := by
  refine le_antisymm ?_ ?_
  · by_cases hi1 : i + 1 < xs.length
    · by_contra hgt
      push_neg at hgt
      have h2 : i + 1 < xs.countP (fun p => decide (p ≤ xs.getD i 0)) := hgt
      have := getD_le_of_lt_countP hs h2
      have := pairwise_lt_getD_strict hs (Nat.lt_succ_self i) hi1
      linarith
    · push_neg at hi1
      exact le_trans (List.countP_le_length _) hi1
  · by_contra hlt
    push_neg at hlt
    have hc : xs.countP (fun p => decide (p ≤ xs.getD i 0)) ≤ i := by omega
    exact lt_irrefl _ (lt_getD_of_countP_le hs hc hi)

/-! ### Interpolation lemmas -/

lemma interp_at_node {xs ys : List ℝ} (hs : xs.Pairwise (· < ·))
    (hlen : ys.length = xs.length) {i : ℕ} (hi : i < xs.length) :
    interp xs ys (xs.getD i 0) = ys.getD i 0 := by
  unfold interp
  rw [countP_at_node hs hi]
  simp only [Nat.add_sub_cancel]
  by_cases hcase : i ≤ xs.length - 2
  · rw [min_eq_right hcase]
    rw [sub_self, zero_mul, zero_div, add_zero]
  · push_neg at hcase
    obtain ⟨m, hm⟩ : ∃ m, xs.length = m + 2 := by
      refine ⟨xs.length - 2, ?_⟩
      omega
    have him : i = m + 1 := by omega
    subst him
    rw [min_eq_left (by omega)]
    have hmm : xs.length - 2 = m := by omega
    rw [hmm]
    have hne : xs.getD (m + 1) 0 - xs.getD m 0 ≠ 0 := by
      have := pairwise_lt_getD_strict hs (Nat.lt_succ_self m) (by omega)
      linarith
    rw [mul_comm, mul_div_assoc, div_self hne, mul_one]
    ring

lemma seg_val_mono {xs ys : List ℝ} (j : ℕ) (hy : ys.getD j 0 ≤ ys.getD (j + 1) 0)
    (hx : xs.getD j 0 < xs.getD (j + 1) 0) {x x' : ℝ} (hxx : x ≤ x') :
    ys.getD j 0 + (x - xs.getD j 0) * (ys.getD (j + 1) 0 - ys.getD j 0) /
        (xs.getD (j + 1) 0 - xs.getD j 0) ≤
      ys.getD j 0 + (x' - xs.getD j 0) * (ys.getD (j + 1) 0 - ys.getD j 0) /
        (xs.getD (j + 1) 0 - xs.getD j 0) := by
  apply add_le_add_left
  rw [mul_div_assoc, mul_div_assoc]
  apply mul_le_mul_of_nonneg_right (by linarith)
  exact div_nonneg (by linarith) (by linarith)

lemma seg_val_ge_left {xs ys : List ℝ} (j : ℕ) (hy : ys.getD j 0 ≤ ys.getD (j + 1) 0)
    (hx : xs.getD j 0 < xs.getD (j + 1) 0) {x : ℝ} (hxj : xs.getD j 0 ≤ x) :
    ys.getD j 0 ≤ ys.getD j 0 + (x - xs.getD j 0) * (ys.getD (j + 1) 0 - ys.getD j 0) /
        (xs.getD (j + 1) 0 - xs.getD j 0) := by
  apply le_add_of_nonneg_right
  rw [mul_div_assoc]
  exact mul_nonneg (by linarith) (div_nonneg (by linarith) (by linarith))

lemma seg_val_le_right {xs ys : List ℝ} (j : ℕ) (hy : ys.getD j 0 ≤ ys.getD (j + 1) 0)
    (hx : xs.getD j 0 < xs.getD (j + 1) 0) {x : ℝ} (hxj : x ≤ xs.getD (j + 1) 0) :
    ys.getD j 0 + (x - xs.getD j 0) * (ys.getD (j + 1) 0 - ys.getD j 0) /
        (xs.getD (j + 1) 0 - xs.getD j 0) ≤ ys.getD (j + 1) 0 := by
  have step : (x - xs.getD j 0) * (ys.getD (j + 1) 0 - ys.getD j 0) /
        (xs.getD (j + 1) 0 - xs.getD j 0) ≤
      (xs.getD (j + 1) 0 - xs.getD j 0) * (ys.getD (j + 1) 0 - ys.getD j 0) /
        (xs.getD (j + 1) 0 - xs.getD j 0) := by
    rw [mul_div_assoc, mul_div_assoc]
    apply mul_le_mul_of_nonneg_right (by linarith)
    exact div_nonneg (by linarith) (by linarith)
  have hcancel : (xs.getD (j + 1) 0 - xs.getD j 0) * (ys.getD (j + 1) 0 - ys.getD j 0) /
      (xs.getD (j + 1) 0 - xs.getD j 0) = ys.getD (j + 1) 0 - ys.getD j 0 := by
    rw [mul_comm, mul_div_assoc, div_self (by linarith), mul_one]
  linarith [step, hcancel.le, hcancel.ge]

lemma interp_mono {xs ys : List ℝ} (hxs : xs.Pairwise (· < ·))
    (hys : ys.Pairwise (· ≤ ·)) (hlen : ys.length = xs.length) (hne : xs ≠ [])
    (hx0 : 0 ≤ xs.getD 0 0) (hy0 : 0 ≤ ys.getD 0 0) {x x' : ℝ} (hxx : x ≤ x') :
    interp xs ys x ≤ interp xs ys x' := by
  have hnpos : 0 < xs.length := List.length_pos.mpr hne
  by_cases hn1 : xs.length = 1
  · obtain ⟨x0, hxs0⟩ := List.length_eq_one.mp hn1
    have hy1 : ys.length = 1 := by omega
    obtain ⟨y0, hys0⟩ := List.length_eq_one.mp hy1
    subst hxs0; subst hys0
    have hj0 : ∀ c : ℕ, min ([x0].length - 2) (c - 1) = 0 := by
      intro c
      simp
    unfold interp
    rw [hj0, hj0]
    simp only [List.getD_cons_zero, List.getD_cons_succ, List.getD_nil]
    simp only [List.getD_cons_zero] at hx0 hy0
    rcases eq_or_lt_of_le hx0 with h0 | h0
    · rw [← h0]
      simp
    · apply add_le_add_left
      rw [mul_div_assoc, mul_div_assoc]
      apply mul_le_mul_of_nonneg_right (by linarith)
      rw [show (0:ℝ) - y0 = -y0 by ring, show (0:ℝ) - x0 = -x0 by ring, neg_div_neg_eq]
      exact div_nonneg hy0 (le_of_lt h0)
  · have hn2 : 2 ≤ xs.length := by omega
    have hc12 : xs.countP (fun p => decide (p ≤ x)) ≤
        xs.countP (fun p => decide (p ≤ x')) := by
      refine List.countP_mono_left ?_
      intro a _ ha
      simp only [decide_eq_true_eq] at ha ⊢
      linarith
    unfold interp
    set c₁ := xs.countP (fun p => decide (p ≤ x)) with hc₁
    set c₂ := xs.countP (fun p => decide (p ≤ x')) with hc₂
    set j₁ := min (xs.length - 2) (c₁ - 1) with hj₁
    set j₂ := min (xs.length - 2) (c₂ - 1) with hj₂
    have hj12 : j₁ ≤ j₂ := by omega
    have hj₁n : j₁ ≤ xs.length - 2 := min_le_left _ _
    have hj₂n : j₂ ≤ xs.length - 2 := min_le_left _ _
    have hseg : ∀ j, j ≤ xs.length - 2 →
        ys.getD j 0 ≤ ys.getD (j + 1) 0 ∧ xs.getD j 0 < xs.getD (j + 1) 0 := by
      intro j hj
      have hj1 : j + 1 < xs.length := by omega
      constructor
      · exact pairwise_le_getD_mono hys (Nat.le_succ j) (by omega)
      · exact pairwise_lt_getD_strict hxs (Nat.lt_succ_self j) hj1
    rcases eq_or_lt_of_le hj12 with heq | hlt
    · rw [heq]
      exact seg_val_mono j₂ (hseg j₂ hj₂n).1 (hseg j₂ hj₂n).2 hxx
    · have hx_upper : x ≤ xs.getD (j₁ + 1) 0 := by
        have hj₁lt : j₁ < xs.length - 2 := by omega
        have hj₁c : j₁ = c₁ - 1 := by omega
        have hcle : c₁ ≤ j₁ + 1 := by omega
        exact le_of_lt (lt_getD_of_countP_le hxs hcle (by omega))
      have hx'_lower : xs.getD j₂ 0 ≤ x' := by
        have hc₂pos : 1 ≤ c₂ := by
          by_contra hc0
          push_neg at hc0
          have : c₂ = 0 := by omega
          omega
        have : j₂ < c₂ := by omega
        exact getD_le_of_lt_countP hxs this
      have step1 := seg_val_le_right j₁ (hseg j₁ hj₁n).1 (hseg j₁ hj₁n).2 hx_upper
      have step2 : ys.getD (j₁ + 1) 0 ≤ ys.getD j₂ 0 :=
        pairwise_le_getD_mono hys (by omega) (by omega)
      have step3 := seg_val_ge_left j₂ (hseg j₂ hj₂n).1 (hseg j₂ hj₂n).2 hx'_lower
      linarith

lemma interp_lower {xs ys : List ℝ} (hxs : xs.Pairwise (· < ·))
    (hys : ys.Pairwise (· ≤ ·)) (hlen : ys.length = xs.length) (hne : xs ≠ [])
    (hx0 : 0 ≤ xs.getD 0 0) (hy0 : 0 ≤ ys.getD 0 0) {x : ℝ}
    (hgx : xs.getD 0 0 ≤ x) : ys.getD 0 0 ≤ interp xs ys x := by
  have hnpos : 0 < xs.length := List.length_pos.mpr hne
  have hnode := interp_at_node hxs hlen hnpos
  calc ys.getD 0 0 = interp xs ys (xs.getD 0 0) := hnode.symm
    _ ≤ interp xs ys x := interp_mono hxs hys hlen hne hx0 hy0 hgx

/-! ### Marginal utility monotonicity -/

lemma u_prime_pos (ifp : IFP) {c : ℝ} (hc : 0 < c) : 0 < ifp.u_prime c :=
  Real.rpow_pos_of_pos hc _

lemma u_prime_anti (ifp : IFP) (hγ : 0 < ifp.γ) {c d : ℝ} (hc : 0 < c) (hcd : c ≤ d) :
    ifp.u_prime d ≤ ifp.u_prime c := by
  unfold IFP.u_prime
  rw [Real.rpow_neg (le_of_lt hc), Real.rpow_neg (by linarith)]
  exact inv_anti₀ (Real.rpow_pos_of_pos hc _)
    (Real.rpow_le_rpow (le_of_lt hc) hcd (le_of_lt hγ))

lemma u_prime_strictAnti (ifp : IFP) (hγ : 0 < ifp.γ) {c d : ℝ} (hc : 0 < c)
    (hcd : c < d) : ifp.u_prime d < ifp.u_prime c := by
  unfold IFP.u_prime
  rw [Real.rpow_neg (le_of_lt hc), Real.rpow_neg (by linarith)]
  exact inv_strictAnti₀ (Real.rpow_pos_of_pos hc _)
    (Real.rpow_lt_rpow (le_of_lt hc) hcd hγ)

/-! ### Monotonicity of the Monte Carlo sum in the candidate consumption -/

lemma shockSum_mono (c_vec : PolicyArray) (a : ℝ) (z : ℕ) (ifp : IFP) (z_hat : ℕ)
    (hγ : 0 < ifp.γ)
    (hgrid : ifp.a_grid.Pairwise (· < ·)) (hgne : ifp.a_grid ≠ [])
    (hgrid0 : ifp.a_grid.getD 0 0 = 0)
    (hlen : c_vec.length = ifp.a_grid.length)
    (hcol : (c_vec.map (fun row => row.getD z_hat 0)).Pairwise (· ≤ ·))
    (hcolpos : 0 < (c_vec.map (fun row => row.getD z_hat 0)).getD 0 0)
    (hP : 0 ≤ (ifp.P.getD z []).getD z_hat 0)
    {t₁ t₂ : ℝ} (ht12 : t₁ ≤ t₂) (hta : t₂ ≤ a) :
    shockSum t₁ c_vec a z ifp z_hat ≤ shockSum t₂ c_vec a z ifp z_hat := by
  unfold shockSum
  apply List.sum_le_sum
  intro η _
  apply List.sum_le_sum
  intro ζ _
  have hRpos : 0 < ifp.R z_hat ζ := Real.exp_pos _
  have hYpos : 0 < ifp.Y η := Real.exp_pos _
  have hyslen : (c_vec.map (fun row => row.getD z_hat 0)).length = ifp.a_grid.length := by
    rw [List.length_map]
    exact hlen
  have hx2pos : 0 < ifp.R z_hat ζ * (a - t₂) + ifp.Y η := by
    have := mul_nonneg (le_of_lt hRpos) (show (0:ℝ) ≤ a - t₂ by linarith)
    linarith
  have hx21 : ifp.R z_hat ζ * (a - t₂) + ifp.Y η ≤ ifp.R z_hat ζ * (a - t₁) + ifp.Y η := by
    have := mul_le_mul_of_nonneg_left (show a - t₂ ≤ a - t₁ by linarith) (le_of_lt hRpos)
    linarith
  have hy00 : 0 ≤ (c_vec.map (fun row => row.getD z_hat 0)).getD 0 0 := le_of_lt hcolpos
  have hx00 : 0 ≤ ifp.a_grid.getD 0 0 := by rw [hgrid0]
  have hc21 : cfun c_vec ifp (ifp.R z_hat ζ * (a - t₂) + ifp.Y η) z_hat ≤
      cfun c_vec ifp (ifp.R z_hat ζ * (a - t₁) + ifp.Y η) z_hat := by
    unfold cfun
    exact interp_mono hgrid hcol hyslen hgne hx00 hy00 hx21
  have hc2pos : 0 < cfun c_vec ifp (ifp.R z_hat ζ * (a - t₂) + ifp.Y η) z_hat := by
    unfold cfun
    refine lt_of_lt_of_le hcolpos ?_
    apply interp_lower hgrid hcol hyslen hgne hx00 hy00
    rw [hgrid0]
    exact le_of_lt hx2pos
  have hup : ifp.u_prime (cfun c_vec ifp (ifp.R z_hat ζ * (a - t₁) + ifp.Y η) z_hat) ≤
      ifp.u_prime (cfun c_vec ifp (ifp.R z_hat ζ * (a - t₂) + ifp.Y η) z_hat) :=
    u_prime_anti ifp hγ hc2pos hc21
  apply mul_le_mul_of_nonneg_right _ hP
  exact mul_le_mul_of_nonneg_left hup (le_of_lt hRpos)

/-- Claim C4 (amended): for fixed assets `a > 0`, income state `z` and a
previous policy whose two interpolation columns are nondecreasing with positive
values, and admissible parameters (`γ > 0`, `β > 0`, nonnegative transition
entries, a strictly increasing asset grid starting at `0`), `euler_diff` is
strictly decreasing in the candidate consumption `t` over `(0, a]`. -/
theorem euler_diff_strictAnti_on_monotone_policy (c_vec : PolicyArray) (a : ℝ)
    (z : ℕ) (ifp : IFP)
    (hγ : 0 < ifp.γ) (hβ : 0 < ifp.β)
    (hgrid : ifp.a_grid.Pairwise (· < ·)) (hgne : ifp.a_grid ≠ [])
    (hgrid0 : ifp.a_grid.getD 0 0 = 0)
    (hlen : c_vec.length = ifp.a_grid.length)
    (hcol0 : (c_vec.map (fun row => row.getD 0 0)).Pairwise (· ≤ ·))
    (hcol1 : (c_vec.map (fun row => row.getD 1 0)).Pairwise (· ≤ ·))
    (hpos0 : 0 < (c_vec.map (fun row => row.getD 0 0)).getD 0 0)
    (hpos1 : 0 < (c_vec.map (fun row => row.getD 1 0)).getD 0 0)
    (hP0 : 0 ≤ (ifp.P.getD z []).getD 0 0)
    (hP1 : 0 ≤ (ifp.P.getD z []).getD 1 0)
    {t₁ t₂ : ℝ} (ht1 : 0 < t₁) (ht12 : t₁ < t₂) (hta : t₂ ≤ a) :
    euler_diff t₂ c_vec a z ifp < euler_diff t₁ c_vec a z ifp := by
  have h0 := shockSum_mono c_vec a z ifp 0 hγ hgrid hgne hgrid0 hlen hcol0 hpos0 hP0
    (le_of_lt ht12) hta
  have h1 := shockSum_mono c_vec a z ifp 1 hγ hgrid hgne hgrid0 hlen hcol1 hpos1 hP1
    (le_of_lt ht12) hta
  have hEz : euler_Ez t₁ c_vec a z ifp ≤ euler_Ez t₂ c_vec a z ifp := by
    unfold euler_Ez
    simp only [List.map_cons, List.map_nil, List.sum_cons, List.sum_nil]
    linarith
  have hdiv : euler_Ez t₁ c_vec a z ifp /
        ((ifp.η_draws.length : ℝ) * (ifp.η_draws.length : ℝ)) ≤
      euler_Ez t₂ c_vec a z ifp /
        ((ifp.η_draws.length : ℝ) * (ifp.η_draws.length : ℝ)) :=
    div_le_div_of_nonneg_right hEz (mul_nonneg (Nat.cast_nonneg _) (Nat.cast_nonneg _))
  have hβdiv := mul_le_mul_of_nonneg_left hdiv (le_of_lt hβ)
  have hmax := max_le_max hβdiv (le_refl (ifp.u_prime a))
  have hu : ifp.u_prime t₂ < ifp.u_prime t₁ := u_prime_strictAnti ifp hγ ht1 ht12
  unfold euler_diff
  simp only []
  linarith

/-! ### Concrete instances used in counterexamples and witnesses -/

lemma rpow_neg_two (x : ℝ) : x ^ (-(2:ℝ)) = (x * x)⁻¹ := by
  rw [show (-(2:ℝ)) = ((-2 : ℤ) : ℝ) by norm_num, Real.rpow_intCast]
  rw [zpow_neg, zpow_two]

/-- A two-state model with trivial shocks (`σ_vec = 0`, `s = 0`, one draw per
sequence) on the grid `[0, 1]`. -/
noncomputable def ifpC4 : IFP :=
  { γ := 2, β := 1/2, P := [[1, 0], [0, 1]], σ_vec := [0, 0], s := 0,
    a_grid := [0, 1], η_draws := [0], ζ_draws := [0] }

/-- A policy array whose columns are strictly decreasing in assets. -/
noncomputable def cvC4 : PolicyArray := [[1, 1], [1/2, 1/2]]

/-- A policy array whose columns are nondecreasing and positive. -/
noncomputable def cvC4mono : PolicyArray := [[1, 1], [2, 2]]

/-- A three-income-state model (square `3 × 3` transition matrix) with trivial
shocks on the grid `[0, 2]`. -/
noncomputable def ifp3 : IFP :=
  { γ := 2, β := 1/2, P := [[0, 0, 1], [1, 0, 0], [0, 1, 0]], σ_vec := [0, 0, 0], s := 0,
    a_grid := [0, 2], η_draws := [0], ζ_draws := [0] }

/-- A constant-one policy with one column per state of `ifp3`. -/
noncomputable def cv3 : PolicyArray := [[1, 1, 1], [1, 1, 1]]

/-- A two-state model whose draw sequences have different lengths
(`η_draws` has one draw, `ζ_draws` has two). -/
noncomputable def ifpMM : IFP :=
  { γ := 2, β := 1/2, P := [[1, 0], [1, 0]], σ_vec := [0, 0], s := 0,
    a_grid := [0, 2], η_draws := [0], ζ_draws := [0, 0] }

/-- A constant-one two-column policy. -/
noncomputable def cvMM : PolicyArray := [[1, 1], [1, 1]]

/-! ### Claim C4 -/

/-- Claim C4 (counterexample): with admissible parameters (`γ = 2 > 0`,
`β = 1/2 ∈ (0, 1)`, strictly increasing grid from `0`, standard shock draws)
but a previous policy that is decreasing in assets, `euler_diff` is *not*
strictly decreasing on `(0, a]`: at `a = 1`, `t₁ = 1/2 < t₂ = 1` (both in
`(0, a]`) the residual strictly increases. -/
theorem euler_diff_not_strictAnti :
    0 < ifpC4.γ ∧ 0 < ifpC4.β ∧ ifpC4.β < 1 ∧
    (0:ℝ) < 1/2 ∧ (1/2:ℝ) < 1 ∧ ((1:ℝ) ≤ (1:ℝ)) ∧
    euler_diff (1/2) cvC4 1 0 ifpC4 < euler_diff 1 cvC4 1 0 ifpC4 := by
  refine ⟨by norm_num [ifpC4], by norm_num [ifpC4], by norm_num [ifpC4],
    by norm_num, by norm_num, le_refl 1, ?_⟩
  have h1 : euler_diff (1/2) cvC4 1 0 ifpC4 = -4 := by
    norm_num [euler_diff, euler_Ez, shockSum, cfun, interp, IFP.u_prime, IFP.R, IFP.Y,
      ifpC4, cvC4, Nat.sub_self, Nat.zero_min, rpow_neg_two, Real.one_rpow,
      Real.exp_zero, List.sum_cons, List.sum_nil, max_def]
  have h2 : euler_diff 1 cvC4 1 0 ifpC4 = -1 := by
    norm_num [euler_diff, euler_Ez, shockSum, cfun, interp, IFP.u_prime, IFP.R, IFP.Y,
      ifpC4, cvC4, Nat.sub_self, Nat.zero_min, rpow_neg_two, Real.one_rpow,
      Real.exp_zero, List.sum_cons, List.sum_nil, max_def]
  rw [h1, h2]
  norm_num

/-- Witness for the amended claim C4 at a concrete monotone positive policy. -/
theorem euler_diff_strictAnti_on_monotone_policy_witness :
    euler_diff 1 cvC4mono 1 0 ifpC4 < euler_diff (1/2) cvC4mono 1 0 ifpC4 := by
  refine euler_diff_strictAnti_on_monotone_policy cvC4mono 1 0 ifpC4
    (by norm_num [ifpC4]) (by norm_num [ifpC4])
    (by norm_num [ifpC4, List.pairwise_cons]) (by simp [ifpC4])
    (by simp [ifpC4]) (by simp [cvC4mono, ifpC4])
    (by norm_num [cvC4mono, List.pairwise_cons]) (by norm_num [cvC4mono, List.pairwise_cons])
    (by norm_num [cvC4mono]) (by norm_num [cvC4mono])
    (by norm_num [ifpC4]) (by norm_num [ifpC4])
    (by norm_num) (by norm_num) (by norm_num)

/-! ### Claim C1 -/

/-- Claim C1 (amended): for a model with exactly two income states and draw
sequences of equal length, `euler_diff` returns exactly the specification's
`u'(t) - max(β·E, u'(a))` with `E` the normalised Monte Carlo sum over every
income state, every `η` draw and every `ζ` draw. -/
theorem euler_diff_eq_spec_of_two_states (t : ℝ) (c_vec : PolicyArray) (a : ℝ)
    (z : ℕ) (ifp : IFP) (hP : ifp.P.length = 2)
    (hlen : ifp.ζ_draws.length = ifp.η_draws.length) :
    euler_diff t c_vec a z ifp = eulerResidualSpec t c_vec a z ifp := by
  have hsum : (Finset.range ifp.P.length).sum (shockSum t c_vec a z ifp) =
      euler_Ez t c_vec a z ifp := by
    rw [hP]
    unfold euler_Ez
    rw [Finset.sum_range_succ, Finset.sum_range_one]
    simp
  unfold euler_diff eulerResidualSpec
  rw [hsum, hlen, one_div_mul_eq_div]

/-- Claim C1 (counterexample): the stated formula fails as soon as the model
leaves the implicit envelope of the code's hard-wired assumptions: with a
three-income-state transition matrix (`ifp3`) the code omits state `2`, and
with draw sequences of unequal lengths (`ifpMM`) the code normalises by
`N_η · N_η` instead of `N_η · N_ζ`; in both cases `euler_diff` differs from the
claimed value at an explicit input. -/
theorem euler_diff_ne_spec_counterexample :
    euler_diff (1/2) cv3 2 0 ifp3 ≠ eulerResidualSpec (1/2) cv3 2 0 ifp3 ∧
    euler_diff (1/2) cvMM 2 0 ifpMM ≠ eulerResidualSpec (1/2) cvMM 2 0 ifpMM := by
  constructor
  · have h1 : euler_diff (1/2) cv3 2 0 ifp3 = 15/4 := by
      norm_num [euler_diff, euler_Ez, shockSum, cfun, interp, IFP.u_prime, IFP.R, IFP.Y,
        ifp3, cv3, Nat.sub_self, Nat.zero_min, rpow_neg_two, Real.one_rpow,
        Real.exp_zero, List.sum_cons, List.sum_nil, max_def]
    have h2 : eulerResidualSpec (1/2) cv3 2 0 ifp3 = 7/2 := by
      norm_num [eulerResidualSpec, euler_Ez, shockSum, cfun, interp, IFP.u_prime,
        IFP.R, IFP.Y, ifp3, cv3, Nat.sub_self, Nat.zero_min, rpow_neg_two,
        Real.one_rpow, Real.exp_zero, List.sum_cons, List.sum_nil, max_def,
        Finset.sum_range_succ]
    rw [h1, h2]
    norm_num
  · have h1 : euler_diff (1/2) cvMM 2 0 ifpMM = 3 := by
      norm_num [euler_diff, euler_Ez, shockSum, cfun, interp, IFP.u_prime, IFP.R, IFP.Y,
        ifpMM, cvMM, Nat.sub_self, Nat.zero_min, rpow_neg_two, Real.one_rpow,
        Real.exp_zero, List.sum_cons, List.sum_nil, max_def]
    have h2 : eulerResidualSpec (1/2) cvMM 2 0 ifpMM = 7/2 := by
      norm_num [eulerResidualSpec, euler_Ez, shockSum, cfun, interp, IFP.u_prime,
        IFP.R, IFP.Y, ifpMM, cvMM, Nat.sub_self, Nat.zero_min, rpow_neg_two,
        Real.one_rpow, Real.exp_zero, List.sum_cons, List.sum_nil, max_def,
        Finset.sum_range_succ]
    rw [h1, h2]
    norm_num

/-- Witness for the amended claim C1 at a concrete two-state model. -/
theorem euler_diff_eq_spec_of_two_states_witness :
    euler_diff (1/2) cvC4 1 0 ifpC4 = eulerResidualSpec (1/2) cvC4 1 0 ifpC4 :=
  euler_diff_eq_spec_of_two_states (1/2) cvC4 1 0 ifpC4 (by simp [ifpC4]) (by simp [ifpC4])

/-! ### Claim C9 -/

/-- Claim C9: `euler_diff` sums the next-period expectation only over the
hard-coded income states `0` and `1`: for any transition matrix with at least
two rows the all-states sum decomposes as the code's sum plus the dropped tail
over states `≥ 2`; when there are exactly two states the code's sum covers all
states; and for the concrete three-state model `ifp3` the dropped state `2`
changes the value. -/
theorem euler_states_hardcoded :
    (∀ (t : ℝ) (c_vec : PolicyArray) (a : ℝ) (z : ℕ) (ifp : IFP),
      2 ≤ ifp.P.length →
        euler_Ez_all t c_vec a z ifp = euler_Ez t c_vec a z ifp +
          (Finset.Ico 2 ifp.P.length).sum (shockSum t c_vec a z ifp)) ∧
    (∀ (t : ℝ) (c_vec : PolicyArray) (a : ℝ) (z : ℕ) (ifp : IFP),
      ifp.P.length = 2 →
        euler_Ez_all t c_vec a z ifp = euler_Ez t c_vec a z ifp) ∧
    euler_Ez (1/2) cv3 2 0 ifp3 ≠ euler_Ez_all (1/2) cv3 2 0 ifp3 := by
  refine ⟨?_, ?_, ?_⟩
  · intro t c_vec a z ifp h2
    unfold euler_Ez_all euler_Ez
    rw [Finset.range_eq_Ico, ← Finset.sum_Ico_consecutive _ (Nat.zero_le 2) h2]
    rw [← Finset.range_eq_Ico, Finset.sum_range_succ, Finset.sum_range_one]
    simp
  · intro t c_vec a z ifp h2
    unfold euler_Ez_all euler_Ez
    rw [h2, Finset.sum_range_succ, Finset.sum_range_one]
    simp
  · have h1 : euler_Ez (1/2) cv3 2 0 ifp3 = 0 := by
      norm_num [euler_Ez, shockSum, cfun, interp, IFP.u_prime, IFP.R, IFP.Y,
        ifp3, cv3, Nat.sub_self, Nat.zero_min, rpow_neg_two, Real.one_rpow,
        Real.exp_zero, List.sum_cons, List.sum_nil]
    have h2 : euler_Ez_all (1/2) cv3 2 0 ifp3 = 1 := by
      norm_num [euler_Ez_all, shockSum, cfun, interp, IFP.u_prime, IFP.R, IFP.Y,
        ifp3, cv3, Nat.sub_self, Nat.zero_min, rpow_neg_two, Real.one_rpow,
        Real.exp_zero, List.sum_cons, List.sum_nil, Finset.sum_range_succ]
    rw [h1, h2]
    norm_num

/-- Witness for claim C9's universally quantified part at the concrete
three-state model. -/
theorem euler_states_hardcoded_witness :
    euler_Ez_all 0 [] 0 0 ifp3 = euler_Ez 0 [] 0 0 ifp3 +
      (Finset.Ico 2 ifp3.P.length).sum (shockSum 0 [] 0 0 ifp3) :=
  euler_states_hardcoded.1 0 [] 0 0 ifp3 (by simp [ifp3])

/-! ### Claim C10 -/

/-- Claim C10: the aliasing of the local `ζ_draws` to `ifp.η_draws` makes the
normalisation divide by `len(η_draws)²` — observable on a model whose draw
sequences have different lengths — while every `IFP` produced by the
constructor has draw sequences of equal length `shock_draw_size`, and under
that equal-length precondition the computed normalisation agrees with the
intended division by `N_η · N_ζ`. -/
theorem euler_diff_alias_normalisation :
    euler_diff (1/2) cvMM 2 0 ifpMM ≠ euler_diff_intended (1/2) cvMM 2 0 ifpMM ∧
    (∀ (randn : ℕ → ℕ → ℝ) (ambientState : ℕ) (γ β : ℝ) (P : List (List ℝ))
        (σ_vec : List ℝ) (s : ℝ) (shock_draw_size : ℕ) (grid_max : ℝ)
        (grid_size : ℕ),
      (IFP.init randn ambientState γ β P σ_vec s shock_draw_size grid_max
          grid_size).ζ_draws.length =
        (IFP.init randn ambientState γ β P σ_vec s shock_draw_size grid_max
          grid_size).η_draws.length) ∧
    (∀ (t : ℝ) (c_vec : PolicyArray) (a : ℝ) (z : ℕ) (ifp : IFP),
      ifp.ζ_draws.length = ifp.η_draws.length →
        euler_diff t c_vec a z ifp = euler_diff_intended t c_vec a z ifp) := by
  refine ⟨?_, ?_, ?_⟩
  · have h1 : euler_diff (1/2) cvMM 2 0 ifpMM = 3 := by
      norm_num [euler_diff, euler_Ez, shockSum, cfun, interp, IFP.u_prime, IFP.R, IFP.Y,
        ifpMM, cvMM, Nat.sub_self, Nat.zero_min, rpow_neg_two, Real.one_rpow,
        Real.exp_zero, List.sum_cons, List.sum_nil, max_def]
    have h2 : euler_diff_intended (1/2) cvMM 2 0 ifpMM = 7/2 := by
      norm_num [euler_diff_intended, euler_Ez, shockSum, cfun, interp, IFP.u_prime,
        IFP.R, IFP.Y, ifpMM, cvMM, Nat.sub_self, Nat.zero_min, rpow_neg_two,
        Real.one_rpow, Real.exp_zero, List.sum_cons, List.sum_nil, max_def]
    rw [h1, h2]
    norm_num
  · intro randn ambientState γ β P σ_vec s shock_draw_size grid_max grid_size
    simp [IFP.init]
  · intro t c_vec a z ifp h
    unfold euler_diff euler_diff_intended
    rw [h]

/-- Witness for claim C10's equal-length part at a concrete model. -/
theorem euler_diff_alias_normalisation_witness :
    euler_diff 0 [] 0 0 ifpC4 = euler_diff_intended 0 [] 0 0 ifpC4 :=
  euler_diff_alias_normalisation.2.2 0 [] 0 0 ifpC4 (by simp [ifpC4])

/-! ### Claim C5 -/

/-- Claim C5: evaluating the interpolant of any policy column exactly at a grid
node returns the stored column value exactly — for every strictly increasing
asset grid, every policy array with one row per grid point, every income-state
column `z` and every grid index `i`. -/
theorem interp_exact_at_nodes (ifp : IFP) (c_vec : PolicyArray) (z : ℕ) {i : ℕ}
    (hs : ifp.a_grid.Pairwise (· < ·)) (hlen : c_vec.length = ifp.a_grid.length)
    (hi : i < ifp.a_grid.length) :
    cfun c_vec ifp (ifp.a_grid.getD i 0) z = (c_vec.getD i []).getD z 0 := by
  unfold cfun
  rw [interp_at_node hs (by rw [List.length_map]; exact hlen) hi]
  have hic : i < c_vec.length := by omega
  have him : i < (c_vec.map (fun row => row.getD z 0)).length := by
    rw [List.length_map]; omega
  rw [List.getD_eq_getElem _ _ him, List.getElem_map,
    List.getD_eq_getElem c_vec [] hic]

/-- Witness for claim C5 at a concrete grid and policy. -/
theorem interp_exact_at_nodes_witness :
    cfun [[3, 5], [4, 6]] ifpC4 (ifpC4.a_grid.getD 1 0) 1 =
      (([[3, 5], [4, 6]] : PolicyArray).getD 1 []).getD 1 0 :=
  interp_exact_at_nodes ifpC4 [[3, 5], [4, 6]] 1
    (by norm_num [ifpC4, List.pairwise_cons]) (by simp [ifpC4]) (by simp [ifpC4])

/-! ### The `solve_model` loop -/

lemma iterate_shift (K : PolicyArray → PolicyArray) (c : PolicyArray) (m : ℕ) :
    K^[m] (K c) = K^[m + 1] c := (Function.iterate_succ_apply K m c).symm

lemma loopGo_step_pos {K : PolicyArray → PolicyArray} {tol : ℝ}
    {max_iter print_skip : ℕ} {verbose : Bool} {i : ℕ} {error : ℝ}
    {c : PolicyArray} {last : Option PolicyArray} {log : List SolveMsg}
    (h : i < max_iter ∧ tol < error) :
    loopGo K tol max_iter print_skip verbose i error c last log =
      loopGo K tol max_iter print_skip verbose (i + 1) (supDiff c (K c)) (K c)
        (some (K c))
        (if verbose = true ∧ (i + 1) % print_skip = 0
          then log ++ [SolveMsg.progress (i + 1) (supDiff c (K c))] else log) := by
  rw [loopGo]
  simp only [dif_pos h]

lemma loopGo_step_neg {K : PolicyArray → PolicyArray} {tol : ℝ}
    {max_iter print_skip : ℕ} {verbose : Bool} {i : ℕ} {error : ℝ}
    {c : PolicyArray} {last : Option PolicyArray} {log : List SolveMsg}
    (h : ¬(i < max_iter ∧ tol < error)) :
    loopGo K tol max_iter print_skip verbose i error c last log = (last, i, log) := by
  rw [loopGo]
  simp only [dif_neg h]

lemma loopGo_spec (K : PolicyArray → PolicyArray) (tol : ℝ)
    (max_iter print_skip : ℕ) (verbose : Bool) :
    ∀ (fuel i : ℕ) (error : ℝ) (c : PolicyArray) (last : Option PolicyArray)
      (log : List SolveMsg), max_iter - i = fuel →
      ((¬(i < max_iter ∧ tol < error) ∧
          loopGo K tol max_iter print_skip verbose i error c last log =
            (last, i, log)) ∨
        (∃ k ext, 1 ≤ k ∧ i + k ≤ max_iter ∧ (i < max_iter ∧ tol < error) ∧
          loopGo K tol max_iter print_skip verbose i error c last log =
            (some (K^[k] c), i + k, log ++ ext) ∧
          (∀ m ∈ ext, ∃ a e, m = SolveMsg.progress a e) ∧
          (i + k = max_iter ∨ supDiff (K^[k - 1] c) (K^[k] c) ≤ tol) ∧
          (∀ j, 1 ≤ j → j < k → tol < supDiff (K^[j - 1] c) (K^[j] c)))) := by
  intro fuel
  induction fuel with
  | zero =>
    intro i error c last log hfuel
    have hge : ¬(i < max_iter ∧ tol < error) := by
      intro hcond
      omega
    exact Or.inl ⟨hge, loopGo_step_neg hge⟩
  | succ fuel ih =>
    intro i error c last log hfuel
    by_cases hcond : i < max_iter ∧ tol < error
    · right
      rw [loopGo_step_pos hcond]
      set ext0 : List SolveMsg :=
        if verbose = true ∧ (i + 1) % print_skip = 0
          then [SolveMsg.progress (i + 1) (supDiff c (K c))] else [] with hext0
      have hlog' : (if verbose = true ∧ (i + 1) % print_skip = 0
          then log ++ [SolveMsg.progress (i + 1) (supDiff c (K c))] else log) =
          log ++ ext0 := by
        rw [hext0]
        by_cases hv : verbose = true ∧ (i + 1) % print_skip = 0
        · rw [if_pos hv, if_pos hv]
        · rw [if_neg hv, if_neg hv, List.append_nil]
      have hext0p : ∀ m ∈ ext0, ∃ a e, m = SolveMsg.progress a e := by
        intro m hm
        rw [hext0] at hm
        by_cases hv : verbose = true ∧ (i + 1) % print_skip = 0
        · rw [if_pos hv] at hm
          simp only [List.mem_singleton] at hm
          exact ⟨i + 1, supDiff c (K c), hm⟩
        · rw [if_neg hv] at hm
          simp at hm
      rw [hlog']
      rcases ih (i + 1) (supDiff c (K c)) (K c) (some (K c)) (log ++ ext0)
          (by omega) with ⟨hstop, heq⟩ | ⟨k', ext', hk1, hkle, hcond', heq, hextp, hstop, hmin⟩
      · refine ⟨1, ext0, le_refl 1, by omega, hcond, ?_, hext0p, ?_, by omega⟩
        · rw [heq, Function.iterate_one]
        · push_neg at hstop
          rcases Nat.lt_or_ge (i + 1) max_iter with hlt | hge
          · right
            have := hstop hlt
            simpa [Function.iterate_one] using this
          · left
            omega
      · refine ⟨k' + 1, ext0 ++ ext', by omega, by omega, hcond, ?_, ?_, ?_, ?_⟩
        · rw [heq, iterate_shift, List.append_assoc]
          have : i + 1 + k' = i + (k' + 1) := by omega
          rw [this]
        · intro m hm
          rcases List.mem_append.mp hm with hm | hm
          · exact hext0p m hm
          · exact hextp m hm
        · rcases hstop with hcap | hsd
          · left
            omega
          · right
            obtain ⟨k'', rfl⟩ : ∃ k'', k' = k'' + 1 := ⟨k' - 1, by omega⟩
            simp only [Nat.add_sub_cancel] at hsd
            rw [iterate_shift, iterate_shift] at hsd
            simpa [Nat.add_sub_cancel] using hsd
        · intro j hj1 hjk
          rcases Nat.lt_or_ge j 2 with hj2 | hj2
          · have hj : j = 1 := by omega
            subst hj
            simpa [Function.iterate_one] using hcond'.2
          · obtain ⟨j', rfl⟩ : ∃ j', j = j' + 2 := ⟨j - 2, by omega⟩
            have := hmin (j' + 1) (by omega) (by omega)
            simp only [Nat.add_sub_cancel] at this
            rw [iterate_shift, iterate_shift] at this
            simpa [show j' + 2 - 1 = j' + 1 by omega] using this
    · exact Or.inl ⟨hcond, loopGo_step_neg hcond⟩


lemma solve_model_char (K : PolicyArray → PolicyArray) (ifp : IFP) (tol : ℝ)
    (max_iter : ℕ) (verbose : Bool) (print_skip : ℕ)
    (htol : 0 < tol) (hcap : 1 ≤ max_iter) :
    ∃ n, 1 ≤ n ∧ n ≤ max_iter ∧
      (solve_model K ifp tol max_iter verbose print_skip).1 =
        some (K^[n] (ifp.a_grid.map (fun a => [a, a]))) ∧
      (n = max_iter ∨
        supDiff (K^[n - 1] (ifp.a_grid.map (fun a => [a, a])))
          (K^[n] (ifp.a_grid.map (fun a => [a, a]))) ≤ tol) ∧
      (∀ m, 1 ≤ m → m < n →
        tol < supDiff (K^[m - 1] (ifp.a_grid.map (fun a => [a, a])))
          (K^[m] (ifp.a_grid.map (fun a => [a, a])))) ∧
      (SolveMsg.failed ∈ (solve_model K ifp tol max_iter verbose print_skip).2 ↔
        n = max_iter) := by
  rcases loopGo_spec K tol max_iter print_skip verbose (max_iter - 0) 0 (tol + 1)
      (ifp.a_grid.map (fun a => [a, a])) none [] rfl with
    ⟨hcond, _⟩ | ⟨k, ext, hk1, hkle, _, heq, hextp, hstop, hmin⟩
  · exact absurd ⟨by omega, by linarith⟩ hcond
  · rw [Nat.zero_add, List.nil_append] at heq
    refine ⟨k, hk1, by omega, ?_, ?_, hmin, ?_⟩
    · simp only [solve_model, heq]
    · rcases hstop with hcap' | hsd
      · left; omega
      · right; exact hsd
    · simp only [solve_model, heq]
      by_cases hk : k = max_iter
      · simp only [hk, if_pos rfl, lt_irrefl, and_false, if_false]
        constructor
        · intro _; trivial
        · intro _
          exact List.mem_append_right _ (by simp)
      · simp only [if_neg hk]
        constructor
        · intro hmem
          exfalso
          by_cases hv : verbose = true ∧ k < max_iter
          · rw [if_pos hv] at hmem
            rcases List.mem_append.mp hmem with hm | hm
            · obtain ⟨a, e, habs⟩ := hextp _ hm
              exact SolveMsg.noConfusion habs
            · simp only [List.mem_singleton] at hm
              exact SolveMsg.noConfusion hm
          · rw [if_neg hv] at hmem
            obtain ⟨a, e, habs⟩ := hextp _ hmem
            exact SolveMsg.noConfusion habs
        · intro hkk
          exact absurd hkk hk

/-! ### Claim C2 -/

/-- Claim C2: for every policy operator, tolerance `> 0` and iteration cap
`≥ 1`, `solve_model` starts from the consume-all-assets initial policy (row `i`
holds the grid value `a_grid[i]` in every state column), iterates the operator,
stops at the first iteration `n` whose sup-norm error is `≤ tol` (or at the
cap), and returns the last computed policy `K^[n]` of the initial policy. -/
theorem solve_model_time_iteration (K : PolicyArray → PolicyArray) (ifp : IFP)
    (tol : ℝ) (max_iter : ℕ) (verbose : Bool) (print_skip : ℕ)
    (htol : 0 < tol) (hcap : 1 ≤ max_iter) (hgrid : ifp.a_grid ≠ []) :
    ∃ n, 1 ≤ n ∧ n ≤ max_iter ∧
      (solve_model K ifp tol max_iter verbose print_skip).1 =
        some (K^[n] (ifp.a_grid.map (fun a => [a, a]))) ∧
      (supDiff (K^[n - 1] (ifp.a_grid.map (fun a => [a, a])))
          (K^[n] (ifp.a_grid.map (fun a => [a, a]))) ≤ tol ∨ n = max_iter) ∧
      (∀ m, 1 ≤ m → m < n →
        tol < supDiff (K^[m - 1] (ifp.a_grid.map (fun a => [a, a])))
          (K^[m] (ifp.a_grid.map (fun a => [a, a])))) := by
  obtain ⟨n, h1, h2, h3, h4, h5, _⟩ :=
    solve_model_char K ifp tol max_iter verbose print_skip htol hcap
  exact ⟨n, h1, h2, h3, h4.symm.imp id id |>.symm.imp id id |>.elim
    (fun h => Or.inr h) (fun h => Or.inl h), h5⟩

/-- Witness for claim C2 at a concrete operator and model. -/
theorem solve_model_time_iteration_witness :
    ∃ n, 1 ≤ n ∧ n ≤ 1 ∧
      (solve_model id ifpC4 1 1 true 4).1 =
        some (id^[n] (ifpC4.a_grid.map (fun a => [a, a]))) ∧
      (supDiff (id^[n - 1] (ifpC4.a_grid.map (fun a => [a, a])))
          (id^[n] (ifpC4.a_grid.map (fun a => [a, a]))) ≤ 1 ∨ n = 1) ∧
      (∀ m, 1 ≤ m → m < n →
        (1:ℝ) < supDiff (id^[m - 1] (ifpC4.a_grid.map (fun a => [a, a])))
          (id^[m] (ifpC4.a_grid.map (fun a => [a, a])))) :=
  solve_model_time_iteration id ifpC4 1 1 true 4 (by norm_num) (le_refl 1)
    (by simp [ifpC4])

/-! ### Claim C6 -/

/-- Claim C6 (amended): the Solver's returned value is only the last computed
policy array; exhausting the iteration cap is surfaced by printing
`"Failed to converge!"` (which happens exactly when the final iteration count
equals the cap), not by a convergence flag or iteration count in the result. -/
theorem solve_model_reports_failure_by_printing (K : PolicyArray → PolicyArray)
    (ifp : IFP) (tol : ℝ) (max_iter : ℕ) (verbose : Bool) (print_skip : ℕ)
    (htol : 0 < tol) (hcap : 1 ≤ max_iter) (hgrid : ifp.a_grid ≠ []) :
    ∃ n, 1 ≤ n ∧ n ≤ max_iter ∧
      (solve_model K ifp tol max_iter verbose print_skip).1 =
        some (K^[n] (ifp.a_grid.map (fun a => [a, a]))) ∧
      (SolveMsg.failed ∈ (solve_model K ifp tol max_iter verbose print_skip).2 ↔
        n = max_iter) := by
  obtain ⟨n, h1, h2, h3, _, _, h6⟩ :=
    solve_model_char K ifp tol max_iter verbose print_skip htol hcap
  exact ⟨n, h1, h2, h3, h6⟩

/-- Witness for the amended claim C6 at a concrete run. -/
theorem solve_model_reports_failure_by_printing_witness :
    ∃ n, 1 ≤ n ∧ n ≤ 1 ∧
      (solve_model id ifpC4 1 1 true 4).1 =
        some (id^[n] (ifpC4.a_grid.map (fun a => [a, a]))) ∧
      (SolveMsg.failed ∈ (solve_model id ifpC4 1 1 true 4).2 ↔ n = 1) :=
  solve_model_reports_failure_by_printing id ifpC4 1 1 true 4 (by norm_num)
    (le_refl 1) (by simp [ifpC4])

/-- Claim C6 (counterexample): two concrete runs of the Solver — same model,
same tolerance, caps `1` and `2`, the policy operator being the identity so the
first application already reproduces the policy — return *identical* results
while one run exhausted its cap (printing `"Failed to converge!"`) and the
other converged.  No component of the returned value can therefore be a
convergence flag or an achieved iteration count. -/
theorem solve_model_no_flag_counterexample :
    (solve_model id ifpC4 1 1 true 4).1 = (solve_model id ifpC4 1 2 true 4).1 ∧
    SolveMsg.failed ∈ (solve_model id ifpC4 1 1 true 4).2 ∧
    SolveMsg.failed ∉ (solve_model id ifpC4 1 2 true 4).2 := by
  have hc0 : ifpC4.a_grid.map (fun a => [a, a]) = [[0, 0], [1, 1]] := by
    simp [ifpC4]
  have hsd : supDiff [[0, 0], [1, 1]] [[0, 0], [1, 1]] = 0 := by
    norm_num [supDiff, List.zipWith, List.join, List.foldl]
  have hr1 : solve_model id ifpC4 1 1 true 4 =
      (some [[0, 0], [1, 1]], [SolveMsg.failed]) := by
    simp only [solve_model, hc0]
    rw [loopGo_step_pos ⟨by norm_num, by norm_num⟩]
    simp only [id_eq, hsd]
    rw [loopGo_step_neg (by norm_num)]
    norm_num
  have hr2 : solve_model id ifpC4 1 2 true 4 =
      (some [[0, 0], [1, 1]], [SolveMsg.converged 1]) := by
    simp only [solve_model, hc0]
    rw [loopGo_step_pos ⟨by norm_num, by norm_num⟩]
    simp only [id_eq, hsd]
    rw [loopGo_step_neg (by norm_num)]
    norm_num
  refine ⟨?_, ?_, ?_⟩
  · rw [hr1, hr2]
  · rw [hr1]
    simp
  · rw [hr2]
    simp

/-! ### Claim C7 -/

/-- Claim C7 (counterexample): `IFP.__init__` performs no validation.
Constructing with a non-stochastic transition matrix (`[[2,2],[0,0]]`, rows
summing to `4` and `0`), a negative discount factor `β = -1` and an empty asset
grid (`grid_size = 0`, so `np.linspace` returns an empty grid) succeeds and
returns a model carrying exactly those invalid values — nothing fails before
iteration. -/
theorem ifp_init_no_validation_counterexample :
    (IFP.init (fun _ _ => 0) 0 2 (-1) [[2, 2], [0, 0]] [0, 0] 0 0 0 0).β = -1 ∧
    (IFP.init (fun _ _ => 0) 0 2 (-1) [[2, 2], [0, 0]] [0, 0] 0 0 0 0).P =
      [[2, 2], [0, 0]] ∧
    (IFP.init (fun _ _ => 0) 0 2 (-1) [[2, 2], [0, 0]] [0, 0] 0 0 0 0).a_grid = [] := by
  refine ⟨rfl, rfl, ?_⟩
  simp [IFP.init, linspace]

/-- Claim C7 (amended): the constructor stores every parameter exactly as
supplied, performing no validation of the transition matrix, the discount
factor or the grid; invalid parameters are detected, if at all, only later
during iteration. -/
theorem ifp_init_stores_fields (randn : ℕ → ℕ → ℝ) (ambientState : ℕ) (γ β : ℝ)
    (P : List (List ℝ)) (σ_vec : List ℝ) (s : ℝ) (shock_draw_size : ℕ)
    (grid_max : ℝ) (grid_size : ℕ) :
    (IFP.init randn ambientState γ β P σ_vec s shock_draw_size grid_max grid_size).γ = γ ∧
    (IFP.init randn ambientState γ β P σ_vec s shock_draw_size grid_max grid_size).β = β ∧
    (IFP.init randn ambientState γ β P σ_vec s shock_draw_size grid_max grid_size).P = P ∧
    (IFP.init randn ambientState γ β P σ_vec s shock_draw_size grid_max grid_size).σ_vec = σ_vec ∧
    (IFP.init randn ambientState γ β P σ_vec s shock_draw_size grid_max grid_size).s = s ∧
    (IFP.init randn ambientState γ β P σ_vec s shock_draw_size grid_max grid_size).a_grid =
      linspace 0 grid_max grid_size :=
  ⟨rfl, rfl, rfl, rfl, rfl, rfl⟩

/-! ### Claim C8 -/

/-- Claim C8: the constructor calls `np.random.seed(1234)` before drawing, so
two independent constructions with identical arguments produce identical shock
draw sequences regardless of the ambient global random state, and two
independent Solver runs on them return identical policy arrays and logs. -/
theorem solve_model_deterministic (randn : ℕ → ℕ → ℝ) (state₁ state₂ : ℕ)
    (γ β : ℝ) (P : List (List ℝ)) (σ_vec : List ℝ) (s : ℝ)
    (shock_draw_size : ℕ) (grid_max : ℝ) (grid_size : ℕ)
    (K : PolicyArray → PolicyArray) (tol : ℝ) (max_iter : ℕ) (verbose : Bool)
    (print_skip : ℕ) :
    IFP.init randn state₁ γ β P σ_vec s shock_draw_size grid_max grid_size =
      IFP.init randn state₂ γ β P σ_vec s shock_draw_size grid_max grid_size ∧
    solve_model K
        (IFP.init randn state₁ γ β P σ_vec s shock_draw_size grid_max grid_size)
        tol max_iter verbose print_skip =
      solve_model K
        (IFP.init randn state₂ γ β P σ_vec s shock_draw_size grid_max grid_size)
        tol max_iter verbose print_skip :=
  ⟨rfl, rfl⟩
